import Mathlib

/-!
Verification development for the cthulhu-knowledge-graph repository.

The repository has three source files:
  * `src/unnamed/part_001` — `graph-visualization.js`: the `transformNeo4jData`
    normalizer and the `GraphVisualization` component (`renderGraph`), which
    fetches `dataUrl`, checks `response.ok`, normalizes, and sets up a d3
    force simulation with drag handlers and a tick subscription.
  * `src/unnamed/part_000` — the typed variant of the component
    (`loadAndRender`): fetches `dataUrl` with no `response.ok` check, consumes
    an already-normalized `{nodes, links}` body, and sets up the same
    simulation, drag handlers, and tick subscription.
  * `src/src/App.tsx` — the app shell plus the standalone batch transform
    script (same `transformNeo4jData` body as `part_001`).

The embedding below is a shallow model of those functions.  Machine-level JS
numbers are modelled as `Int` (the repository ids are integer node ids), JS
exceptions as `Except`, and `console.warn` / `console.error` as an explicit
list of emitted diagnostics.  Behavior supplied by external libraries
(d3-force link resolution, the per-tick pin enforcement, the React effect
lifecycle) is modelled from the spec and is marked as such in doc comments.
-/

/-- Log level of a console diagnostic: `console.warn` or `console.error`. -/
inductive LogLevel where
  | warn
  | error
deriving DecidableEq, Repr

/-- One console diagnostic emitted by the code. -/
structure Diag where
  level : LogLevel
  msg : String
deriving DecidableEq, Repr

/-- Subset of JS values that can sit in the `Source` / `Target` fields of a
raw record: a number, a string, the absent field (`undefined`), or `null`.
`typeof v` is `"number"` exactly for the `num` constructor. -/
inductive JsVal where
  | num (n : Int)
  | str (s : String)
  | undef
  | nullV
deriving DecidableEq, Repr

/-- A raw Neo4j relationship record `{Source, Target, RelationshipType?}`. -/
structure RawRecord where
  Source : JsVal
  Target : JsVal
  RelationshipType : Option String
deriving DecidableEq, Repr

/-- One element of the raw top-level array: either a record object or a
nullish (`null` / `undefined`) entry, which fails the code's `!rel` check. -/
inductive RawEntry where
  | nullish
  | entry (r : RawRecord)
deriving DecidableEq, Repr

/-- The raw input value handed to `transformNeo4jData`: either an array of
entries, or any non-array value (`Array.isArray` fails; the code never
inspects the value further, so one parameterized constructor covers all
non-array inputs). -/
inductive RawInput where
  | arr (xs : List RawEntry)
  | notArray (v : JsVal)
deriving DecidableEq, Repr

/-- An output node `{id, label, type}` as produced by the normalizer. -/
structure NodeRec where
  id : String
  label : String
  type : String
deriving DecidableEq, Repr

/-- An output link `{source, target, type}` as produced by the normalizer. -/
structure LinkRec where
  source : String
  target : String
  type : String
deriving DecidableEq, Repr

/-- The `{nodes, links}` container produced by the normalizer. -/
structure Graph where
  nodes : List NodeRec
  links : List LinkRec
deriving DecidableEq, Repr

/-- The empty graph `{nodes: [], links: []}`. -/
def emptyGraphData : Graph := ⟨[], []⟩

/-! ### Decimal printing of JS integer numbers

`id.toString()` on a JS number prints the canonical decimal form.  The model
uses a fuel-based structural printer (fuel `n` is always enough for the
digits of `n`) so that proofs and kernel evaluation both work. -/

/-- Character of a single decimal digit `d` (for `d < 10`). -/
def digitChar (d : Nat) : Char := Char.ofNat (48 + d)

/-- Digit list of `n`, most significant first; `fuel` bounds the recursion
depth and any `fuel ≥ n` is enough.  `natToCharsAux fuel 0 = []`. -/
def natToCharsAux : Nat → Nat → List Char
  | 0, _ => []
  | fuel + 1, n => if n = 0 then [] else natToCharsAux fuel (n / 10) ++ [digitChar (n % 10)]

/-- Digit characters of `n`, most significant first (empty for `0`). -/
def natToChars (n : Nat) : List Char := natToCharsAux n n

/-- Canonical decimal string of a natural number, as JS prints it. -/
def natToStr (n : Nat) : String := if n = 0 then "0" else ⟨natToChars n⟩

/-- Canonical decimal string of an integer, as JS `Number.prototype.toString`
prints an integral number. -/
def intToStr : Int → String
  | Int.ofNat m => natToStr m
  | Int.negSucc m => "-" ++ natToStr (m + 1)

/-! ### The normalizer `transformNeo4jData` (src/unnamed/part_001 lines 11-45,
same body in src/src/App.tsx lines 45-79) -/

/-- The validity test of the node-collection loop:
`!(!rel || typeof rel.Source !== 'number' || typeof rel.Target !== 'number')`. -/
def validEntry : RawEntry → Bool
  | RawEntry.nullish => false
  | RawEntry.entry r =>
    (match r.Source with | JsVal.num _ => true | _ => false) &&
    (match r.Target with | JsVal.num _ => true | _ => false)

/-- Insertion into the JS `Set` used for `nodeIds`: appends the element
unless it is already present, preserving insertion order. -/
def insertNew (acc : List Int) (n : Int) : List Int :=
  if n ∈ acc then acc else acc ++ [n]

/-- The `rawData.forEach` loop collecting `nodeIds`: every valid record adds
its `Source` then its `Target` to the set; invalid records are skipped. -/
def collectIds : List Int → List RawEntry → List Int
  | acc, [] => acc
  | acc, RawEntry.nullish :: es => collectIds acc es
  | acc, RawEntry.entry r :: es =>
    match r.Source, r.Target with
    | JsVal.num s, JsVal.num t => collectIds (insertNew (insertNew acc s) t) es
    | _, _ => collectIds acc es

/-- The `console.warn('无效的关系数据', rel)` diagnostics emitted by the
forEach loop, in entry order, one per invalid entry. -/
def warnDiags (xs : List RawEntry) : List Diag :=
  (xs.filter (fun e => !validEntry e)).map (fun _ => ⟨LogLevel.warn, "无效的关系数据"⟩)

/-- JS `v.toString()` on a `Source` / `Target` field value: numbers and
strings convert; calling `.toString()` on `undefined` or `null` (or accessing
a field of a nullish record) throws a `TypeError`. -/
def jsToString : JsVal → Except String String
  | JsVal.num n => Except.ok (intToStr n)
  | JsVal.str s => Except.ok s
  | JsVal.undef => Except.error "TypeError"
  | JsVal.nullV => Except.error "TypeError"

/-- JS `rel.RelationshipType || '关联'`: the default applies when the field
is absent or the empty string (falsy). -/
def relType : Option String → String
  | none => "关联"
  | some s => if s = "" then "关联" else s

/-- One step of the `rawData.map(rel => ...)` building `links`.  Note this
map runs over every raw entry, valid or not: a nullish entry throws on field
access, a non-stringable endpoint throws on `.toString()`. -/
def buildLink : RawEntry → Except String LinkRec
  | RawEntry.nullish => Except.error "TypeError"
  | RawEntry.entry r => do
    let s ← jsToString r.Source
    let t ← jsToString r.Target
    Except.ok ⟨s, t, relType r.RelationshipType⟩

/-- The whole `rawData.map` building `links`: left to right, aborting at the
first thrown exception, exactly like JS `Array.prototype.map`. -/
def buildLinks : List RawEntry → Except String (List LinkRec)
  | [] => Except.ok []
  | e :: es =>
    match buildLink e with
    | Except.error m => Except.error m
    | Except.ok l =>
      match buildLinks es with
      | Except.error m => Except.error m
      | Except.ok ls => Except.ok (l :: ls)

/-- Node constructed from a collected numeric id:
`{id: id.toString(), label: "Node " + id, type: "Entity"}`. -/
def mkNode (i : Int) : NodeRec := ⟨intToStr i, "Node " ++ intToStr i, "Entity"⟩

/-- Body of the `try` block of `transformNeo4jData`: throws (returns
`Except.error`) if the input is not an array or if the link-building map
throws; otherwise returns the graph. -/
def transformInner : RawInput → Except String Graph
  | RawInput.notArray _ => Except.error "输入数据必须是数组格式"
  | RawInput.arr xs =>
    let nodes := (collectIds [] xs).map mkNode
    match buildLinks xs with
    | Except.error m => Except.error m
    | Except.ok links => Except.ok ⟨nodes, links⟩

/-- The `console.warn` diagnostics emitted before any exception is thrown:
the forEach loop runs to completion (it never throws), so all its warnings
are emitted even when the later link map throws; a non-array input throws
before the loop, emitting none. -/
def rawWarns : RawInput → List Diag
  | RawInput.notArray _ => []
  | RawInput.arr xs => warnDiags xs

/-- `transformNeo4jData` (src/unnamed/part_001 lines 11-45): the try body,
with the catch clause logging `console.error('数据转换失败:', error)` and
returning the empty graph.  The result pairs the returned graph with the
full list of console diagnostics in emission order. -/
def transformNeo4jData (raw : RawInput) : Graph × List Diag :=
  match transformInner raw with
  | Except.ok g => (g, rawWarns raw)
  | Except.error _ => (emptyGraphData, rawWarns raw ++ [⟨LogLevel.error, "数据转换失败"⟩])

/-! ### Spec-side characterization of the node order (for the refinement
clause of C8) -/

/-- Read a digit list back into the natural number it denotes (decimal). -/
def readChars (l : List Char) : Nat := l.foldl (fun a c => a * 10 + (c.toNat - 48)) 0

/-- Written from the wording of the spec, for comparison with the
source-derived `collectIds`: the endpoints contributed by one raw entry, in
the order the node-collection loop encounters them (`Source` then `Target`),
empty for entries that fail the numeric test. -/
def entryEndpoints : RawEntry → List Int
  | RawEntry.nullish => []
  | RawEntry.entry r =>
    match r.Source, r.Target with
    | JsVal.num s, JsVal.num t => [s, t]
    | _, _ => []

/-- Written from the wording of the spec: the stream of valid endpoints in
encounter order across the raw record list. -/
def endpointStream (xs : List RawEntry) : List Int := (xs.map entryEndpoints).flatten

/-- Written from the wording of the spec ("insertion order of first
encounter ... each appearing exactly once"): keep the first occurrence of
each element, drop every later duplicate. -/
def firstOccurrences : List Int → List Int
  | [] => []
  | x :: xs => x :: (firstOccurrences xs).filter (fun y => y != x)

/-- Decidable test that every raw entry survives the link-building map
without throwing: the entry is an object and both endpoints have a
`.toString()` (are numbers or strings). -/
def entryLinkOk : RawEntry → Bool
  | RawEntry.nullish => false
  | RawEntry.entry r =>
    (match r.Source with | JsVal.num _ => true | JsVal.str _ => true | _ => false) &&
    (match r.Target with | JsVal.num _ => true | JsVal.str _ => true | _ => false)

/-- Decidable test that the whole link map of `transformNeo4jData` succeeds. -/
def linksOk (xs : List RawEntry) : Bool := xs.all entryLinkOk

/-- Decidable test that a raw entry is a valid record one of whose endpoints
prints as the string `i`.  Used to state soundness of output node ids. -/
def entryHasEndpointStr (i : String) : RawEntry → Bool
  | RawEntry.nullish => false
  | RawEntry.entry r =>
    match r.Source, r.Target with
    | JsVal.num s, JsVal.num t => i == intToStr s || i == intToStr t
    | _, _ => false

/-- Decidable pairwise-distinctness check on a list of strings. -/
def allDistinct : List String → Bool
  | [] => true
  | x :: xs => !xs.contains x && allDistinct xs

/-- Decidable structural-identity check on graphs: same node ids, labels and
types, same link fields, same order. -/
def structurallyIdentical (g h : Graph) : Bool := decide (g = h)

/-! ### Link resolution and the two fetch-and-render pipelines

The d3-force library is not part of the repository sources, so its
setup-time behavior is modelled from the spec. -/

/-- Modelled from the spec: d3 `forceLink(...).id(d => d.id)` resolution,
missing from src (it lives in the d3-force dependency).  At simulation setup
every link endpoint is looked up among the node ids; per the spec an
endpoint that resolves to no known node id is a setup-time fatal error (d3
throws), checked link by link, `source` before `target`. -/
def resolveLinks (ids : List String) : List LinkRec → Except String Unit
  | [] => Except.ok ()
  | l :: ls =>
    if ids.contains l.source then
      if ids.contains l.target then resolveLinks ids ls
      else Except.error l.target
    else Except.error l.source

/-- Observable outcome of one run of a fetch-and-render pipeline: how many
drawing primitives of each kind were appended, whether a simulation was
started (tick subscription installed), and how many diagnostics of each
level were logged. -/
structure RenderResult where
  lineCount : Nat
  circleCount : Nat
  labelCount : Nat
  simulationStarted : Bool
  errorLogs : Nat
  warnLogs : Nat
deriving DecidableEq, Repr

/-- Pipeline outcome with nothing rendered, no simulation, and the given
diagnostic counts. -/
def noRender (e w : Nat) : RenderResult := ⟨0, 0, 0, false, e, w⟩

/-- Outcome of the awaited `fetch(dataUrl)` as the component code observes
it: the promise rejects (network failure), or a response arrives with a
success flag (`response.ok`) and a body.  `badJson` covers a body on which
`response.json()` (or the subsequent field access) throws; `jsonRaw` is a
body that parses to a raw value. -/
inductive FetchOutcome where
  | rejected
  | response (ok : Bool) (body : Option RawInput)
deriving DecidableEq, Repr

/-- `renderGraph` from src/unnamed/part_001 lines 56-150, as a function of
the fetch outcome.  Control flow translated line by line: any throw lands in
the single catch, which logs one `console.error` and returns; an `ok`
response is parsed and normalized; an empty node set logs one warning and
returns; then the simulation is created (link resolution may throw) and the
line / circle / label primitives are appended and the tick handler
installed.  A `none` body models a body on which `response.json()` throws. -/
def renderGraph (f : FetchOutcome) : RenderResult :=
  match f with
  | FetchOutcome.rejected => noRender 1 0
  | FetchOutcome.response ok body =>
    if !ok then noRender 1 0
    else
      match body with
      | none => noRender 1 0
      | some raw =>
        let res := transformNeo4jData raw
        let e := (res.2.filter (fun d => d.level == LogLevel.error)).length
        let w := (res.2.filter (fun d => d.level == LogLevel.warn)).length
        if res.1.nodes.length = 0 then noRender e (w + 1)
        else
          match resolveLinks (res.1.nodes.map (fun n => n.id)) res.1.links with
          | Except.error _ => noRender (e + 1) w
          | Except.ok _ =>
            ⟨res.1.links.length, res.1.nodes.length, res.1.nodes.length, true, e, w⟩

/-- Outcome of the awaited `fetch(dataUrl)` for the typed component: the
body, when it parses, is already in the internal `{nodes, links}` schema.  A
`none` body models a body on which `response.json()` or the later
`data.nodes.length` access throws. -/
inductive FetchOutcomeTyped where
  | rejected
  | response (ok : Bool) (body : Option Graph)
deriving DecidableEq, Repr

/-- `loadAndRender` from src/unnamed/part_000 lines 28-124, as a function of
the fetch outcome.  Translated line by line: there is no `response.ok`
check, so the success flag is ignored; an empty node set returns silently
(no diagnostic); link resolution happens at simulation setup before any
primitive is appended; any throw lands in the single catch which logs one
`console.error`. -/
def loadAndRender (f : FetchOutcomeTyped) : RenderResult :=
  match f with
  | FetchOutcomeTyped.rejected => noRender 1 0
  | FetchOutcomeTyped.response _ body =>
    match body with
    | none => noRender 1 0
    | some g =>
      if g.nodes.length = 0 then noRender 0 0
      else
        match resolveLinks (g.nodes.map (fun n => n.id)) g.links with
        | Except.error _ => noRender 1 0
        | Except.ok _ => ⟨g.links.length, g.nodes.length, g.nodes.length, true, 0, 0⟩

/-! ### Component lifecycle (claim C2)

The `useEffect` in both components runs `loadAndRender` / `renderGraph` and
returns no cleanup function; the async continuation applies its result
without comparing the originating url to the current one.  The React effect
plumbing is external to the sources, so it is modelled from the spec; the
two decisive facts taken from the source are (1) the effect body returns no
cleanup, and (2) the fetch continuation commits unconditionally. -/

/-- State of one mounted view: fetches in flight (by originating url), urls
whose fetched data was committed to the view, running simulations whose tick
subscription delivers ticks to the render layer (by originating url), the
url of the latest effect run, and the mount flag. -/
structure ViewState where
  pending : List String
  committed : List String
  sims : List String
  current : Option String
  mounted : Bool
deriving DecidableEq, Repr

/-- Initial view state: freshly created, nothing loaded. -/
def initView : ViewState := ⟨[], [], [], none, true⟩

/-- The cleanup React runs before re-running the effect and on unmount.  The
effect body in both source components returns no cleanup function, so the
cleanup does nothing: no simulation is stopped, no subscription removed. -/
def effectCleanup (s : ViewState) : ViewState := s

/-- Modelled from the spec: the external events driving one view.  `setUrl`
is a mount or a `dataUrl` prop change (React runs the previous cleanup, then
the effect body, which starts a fetch for the new url); `fetchResolves` is
the resolution of an in-flight fetch, running the rest of the async body;
`unmount` runs the cleanup and removes the view. -/
inductive ViewEvent where
  | setUrl (url : String)
  | fetchResolves (url : String)
  | unmount
deriving DecidableEq, Repr

/-- One step of the view lifecycle.  The `pending.contains` test only checks
that the event corresponds to a fetch that was actually started; the code
itself has no guard, so a resolving fetch always commits its data and starts
a simulation, whatever the current url is, and the cleanup (which does
nothing) leaves simulations running on url change and on unmount. -/
def stepView (s : ViewState) : ViewEvent → ViewState
  | ViewEvent.setUrl u =>
    let s1 := effectCleanup s
    { s1 with current := some u, pending := s1.pending ++ [u] }
  | ViewEvent.fetchResolves u =>
    if s.pending.contains u then
      { s with pending := s.pending.erase u,
               committed := s.committed ++ [u],
               sims := s.sims ++ [u] }
    else s
  | ViewEvent.unmount =>
    let s1 := effectCleanup s
    { s1 with mounted := false }

/-- Run a list of view events from the initial state. -/
def runView (evs : List ViewEvent) : ViewState := evs.foldl stepView initView

/-! ### Drag interaction and per-tick pin enforcement (claim C5) -/

/-- Kinematic state of one simulation node: position, velocity, and the
optional pinned position `fx` / `fy` (JS `null` is `none`). -/
structure SimNode where
  x : ℚ
  y : ℚ
  vx : ℚ
  vy : ℚ
  fx : Option ℚ
  fy : Option ℚ
deriving DecidableEq, Repr

/-- State the drag handlers touch: the dragged node and the simulation
energy controls (`alphaTarget`, and whether `restart()` has resumed the
internal timer). -/
structure SimState where
  node : SimNode
  alphaTarget : ℚ
  running : Bool
deriving DecidableEq, Repr

/-- The `"start"` drag handler (src/unnamed/part_000 lines 77-81,
src/unnamed/part_001 lines 104-108): when no other drag gesture is active
(`event.active` is `0`), raise `alphaTarget` to `0.3` and `restart()`; then
pin the node at its current position. -/
def dragStarted (active : Nat) (s : SimState) : SimState :=
  let s1 := if active = 0 then { s with alphaTarget := 3 / 10, running := true } else s
  { s1 with node := { s1.node with fx := some s1.node.x, fy := some s1.node.y } }

/-- The `"drag"` drag handler: pin the node at the pointer position. -/
def dragged (px py : ℚ) (s : SimState) : SimState :=
  { s with node := { s.node with fx := some px, fy := some py } }

/-- The `"end"` drag handler: when no other gesture remains active, lower
`alphaTarget` back to `0`; then clear the pin (`d.fx = null; d.fy = null`). -/
def dragEnded (active : Nat) (s : SimState) : SimState :=
  let s1 := if active = 0 then { s with alphaTarget := 0 } else s
  { s1 with node := { s1.node with fx := none, fy := none } }

/-- Modelled from the spec: one simulation tick on one node, missing from
src (it lives in the d3-force dependency).  A free axis integrates damped
velocity (`dvx` / `dvy` are the force contributions of this tick, `decay`
the velocity decay factor); a pinned axis has its position forced to the pin
value and its velocity zeroed, regardless of forces. -/
def tickNode (dvx dvy decay : ℚ) (n : SimNode) : SimNode :=
  let n1 :=
    match n.fx with
    | some p => { n with x := p, vx := 0 }
    | none => { n with vx := (n.vx + dvx) * decay, x := n.x + (n.vx + dvx) * decay }
  match n1.fy with
  | some p => { n1 with y := p, vy := 0 }
  | none => { n1 with vy := (n1.vy + dvy) * decay, y := n1.y + (n1.vy + dvy) * decay }

/-- One simulation tick lifted to the drag-visible state. -/
def tickSim (dvx dvy decay : ℚ) (s : SimState) : SimState :=
  { s with node := tickNode dvx dvy decay s.node }

/-- A run of successive ticks with arbitrary per-tick force contributions
and decay factors. -/
def tickRun (ds : List (ℚ × ℚ × ℚ)) (s : SimState) : SimState :=
  ds.foldl (fun st d => tickSim d.1 d.2.1 d.2.2 st) s

/-- One single-gesture drag episode: drag-start (no other gesture active),
one drag-move to the pointer position `(px, py)`, at least one simulation
tick (the simulation is running, having been reheated and restarted), then
drag-end.  The force contributions and decay factors of the ticks are
arbitrary. -/
def dragEpisode (s0 : SimState) (px py dvx dvy dc : ℚ) (ds : List (ℚ × ℚ × ℚ)) : SimState :=
  dragEnded 0 (tickRun ds (tickSim dvx dvy dc (dragged px py (dragStarted 0 s0))))

/-! ### Lemmas about the decimal printer -/

theorem digitChar_toNat (d : Nat) (h : d < 10) : (digitChar d).toNat = 48 + d := by
  interval_cases d <;> decide

theorem readChars_append_digit (l : List Char) (c : Char) :
    readChars (l ++ [c]) = readChars l * 10 + (c.toNat - 48) := by
  simp [readChars, List.foldl_append]

theorem readChars_natToCharsAux (fuel : Nat) :
    ∀ n, n ≤ fuel → readChars (natToCharsAux fuel n) = n := by
  induction fuel with
  | zero =>
    intro n hn
    have : n = 0 := Nat.le_zero.mp hn
    simp [this, natToCharsAux, readChars]
  | succ fuel ih =>
    intro n hn
    by_cases h0 : n = 0
    · simp [h0, natToCharsAux, readChars]
    · have hdiv : n / 10 ≤ fuel := by
        have : n / 10 < n := Nat.div_lt_self (Nat.pos_of_ne_zero h0) (by norm_num)
        omega
      have hmod : n % 10 < 10 := Nat.mod_lt _ (by norm_num)
      rw [natToCharsAux]
      simp only [h0, if_false]
      rw [readChars_append_digit, ih _ hdiv, digitChar_toNat _ hmod]
      omega

theorem readChars_natToChars (n : Nat) : readChars (natToChars n) = n :=
  readChars_natToCharsAux n n (Nat.le_refl n)

theorem natToCharsAux_ne_nil (fuel n : Nat) (h0 : n ≠ 0) (hn : n ≤ fuel) :
    natToCharsAux fuel n ≠ [] := by
  cases fuel with
  | zero => omega
  | succ fuel =>
    rw [natToCharsAux]
    simp [h0]

theorem mem_natToCharsAux_ne_dash (fuel : Nat) :
    ∀ n, ∀ c ∈ natToCharsAux fuel n, c ≠ '-' := by
  induction fuel with
  | zero => intro n c hc; simp [natToCharsAux] at hc
  | succ fuel ih =>
    intro n c hc
    rw [natToCharsAux] at hc
    by_cases h0 : n = 0
    · simp [h0] at hc
    · simp only [h0, if_false, List.mem_append, List.mem_singleton] at hc
      rcases hc with hc | hc
      · exact ih _ c hc
      · subst hc
        have hmod : n % 10 < 10 := Nat.mod_lt _ (by norm_num)
        interval_cases h : n % 10 <;> decide

theorem natToStr_inj : ∀ a b : Nat, natToStr a = natToStr b → a = b := by
  intro a b hab
  by_cases ha : a = 0 <;> by_cases hb : b = 0
  · omega
  · exfalso
    rw [natToStr, natToStr, if_pos ha, if_neg hb] at hab
    have hdata : List.cons '0' [] = natToChars b := congrArg String.data hab
    have := readChars_natToChars b
    rw [← hdata] at this
    simp [readChars] at this
    omega
  · exfalso
    rw [natToStr, natToStr, if_neg ha, if_pos hb] at hab
    have hdata : natToChars a = List.cons '0' [] := congrArg String.data hab
    have := readChars_natToChars a
    rw [hdata] at this
    simp [readChars] at this
    omega
  · rw [natToStr, natToStr, if_neg ha, if_neg hb] at hab
    have hdata : natToChars a = natToChars b := congrArg String.data hab
    have h1 := readChars_natToChars a
    rw [hdata, readChars_natToChars b] at h1
    exact h1.symm

theorem natToStr_no_dash (n : Nat) : ∀ c ∈ (natToStr n).data, c ≠ '-' := by
  intro c hc
  rw [natToStr] at hc
  by_cases h0 : n = 0
  · rw [if_pos h0] at hc
    have hd : ("0" : String).data = ['0'] := rfl
    rw [hd] at hc
    have hc0 : c = '0' := by simpa using hc
    subst hc0
    decide
  · rw [if_neg h0] at hc
    exact mem_natToCharsAux_ne_dash n n c hc

theorem intToStr_inj : Function.Injective intToStr := by
  intro a b hab
  cases a with
  | ofNat m =>
    cases b with
    | ofNat k =>
      simp only [intToStr] at hab
      exact congrArg Int.ofNat (natToStr_inj m k hab)
    | negSucc k =>
      exfalso
      simp only [intToStr] at hab
      have hdata : (natToStr m).data = '-' :: (natToStr (k + 1)).data := by
        have := congrArg String.data hab
        simpa using this
      have : '-' ∈ (natToStr m).data := by rw [hdata]; exact List.mem_cons_self _ _
      exact natToStr_no_dash m '-' this rfl
  | negSucc m =>
    cases b with
    | ofNat k =>
      exfalso
      simp only [intToStr] at hab
      have hdata : '-' :: (natToStr (m + 1)).data = (natToStr k).data := by
        have := congrArg String.data hab
        simpa using this
      have : '-' ∈ (natToStr k).data := by rw [← hdata]; exact List.mem_cons_self _ _
      exact natToStr_no_dash k '-' this rfl
    | negSucc k =>
      simp only [intToStr] at hab
      have hdata : '-' :: (natToStr (m + 1)).data = '-' :: (natToStr (k + 1)).data := by
        have := congrArg String.data hab
        simpa using this
      have : (natToStr (m + 1)) = (natToStr (k + 1)) := by
        apply congrArg String.mk
        exact List.tail_eq_of_cons_eq hdata
      have hmk := natToStr_inj _ _ this
      have : m = k := by omega
      exact congrArg Int.negSucc this

/-! ### Lemmas: the node-collection loop realizes first-encounter order -/

theorem contains_eq_decide {α : Type} [DecidableEq α] [BEq α] [LawfulBEq α]
    (acc : List α) (a : α) : acc.contains a = decide (a ∈ acc) := by
  simp [List.contains]

theorem collectIds_eq_foldl (xs : List RawEntry) :
    ∀ acc, collectIds acc xs = (endpointStream xs).foldl insertNew acc := by
  induction xs with
  | nil => intro acc; rfl
  | cons e es ih =>
    intro acc
    cases e with
    | nullish => simp [collectIds, endpointStream, entryEndpoints, ih acc]
    | entry r =>
      rcases r with ⟨S, T, R⟩
      cases S <;> cases T <;>
        simp [collectIds, endpointStream, entryEndpoints, ih]

theorem foldl_insertNew_eq (l : List Int) :
    ∀ acc, l.foldl insertNew acc =
      acc ++ (firstOccurrences l).filter (fun y => !acc.contains y) := by
  induction l with
  | nil => intro acc; simp [firstOccurrences]
  | cons x l ih =>
    intro acc
    rw [List.foldl_cons, ih]
    by_cases hx : x ∈ acc
    · have h1 : insertNew acc x = acc := by simp [insertNew, hx]
      rw [h1]
      simp only [firstOccurrences]
      rw [List.filter_cons]
      have hcx : (!acc.contains x) = false := by
        simp [contains_eq_decide, hx]
      rw [hcx]
      simp only [Bool.false_eq_true, if_false]
      congr 1
      rw [List.filter_filter]
      apply List.filter_congr
      intro a _
      by_cases h1 : a ∈ acc
      · simp [contains_eq_decide, h1]
      · have hax : a ≠ x := fun h => h1 (h ▸ hx)
        simp [contains_eq_decide, h1, hax]
    · have h1 : insertNew acc x = acc ++ [x] := by simp [insertNew, hx]
      rw [h1]
      simp only [firstOccurrences]
      rw [List.filter_cons]
      have hcx : (!acc.contains x) = true := by
        simp [contains_eq_decide, hx]
      rw [hcx]
      simp only [if_true]
      rw [List.append_assoc, List.singleton_append]
      congr 2
      rw [List.filter_filter]
      apply List.filter_congr
      intro a _
      by_cases h1 : a ∈ acc <;> by_cases h2 : a = x <;>
        simp [contains_eq_decide, List.mem_append, h1, h2]

theorem collectIds_eq_firstOccurrences (xs : List RawEntry) :
    collectIds [] xs = firstOccurrences (endpointStream xs) := by
  rw [collectIds_eq_foldl xs [], foldl_insertNew_eq]
  simp [List.contains]

theorem firstOccurrences_nodup (l : List Int) : (firstOccurrences l).Nodup := by
  induction l with
  | nil => simp [firstOccurrences]
  | cons x l ih =>
    simp only [firstOccurrences]
    rw [List.nodup_cons]
    refine ⟨?_, ih.filter _⟩
    intro hmem
    have h2 := (List.mem_filter.mp hmem).2
    simp at h2

theorem mem_firstOccurrences {a : Int} {l : List Int} :
    a ∈ firstOccurrences l ↔ a ∈ l := by
  induction l with
  | nil => simp [firstOccurrences]
  | cons x l ih =>
    simp only [firstOccurrences, List.mem_cons]
    constructor
    · rintro (rfl | h)
      · exact Or.inl rfl
      · exact Or.inr (ih.mp (List.mem_filter.mp h).1)
    · rintro (rfl | h)
      · exact Or.inl rfl
      · by_cases hax : a = x
        · exact Or.inl hax
        · exact Or.inr (List.mem_filter.mpr ⟨ih.mpr h, by simp [hax]⟩)

theorem allDistinct_iff {l : List String} : allDistinct l = true ↔ l.Nodup := by
  induction l with
  | nil => simp [allDistinct]
  | cons x xs ih =>
    rw [List.nodup_cons, ← ih]
    simp [allDistinct, contains_eq_decide]

/-! ### Lemmas: success of the link-building map -/

theorem buildLink_isOk (e : RawEntry) : (buildLink e).isOk = entryLinkOk e := by
  cases e with
  | nullish => rfl
  | entry r =>
    rcases r with ⟨S, T, R⟩
    cases S <;> cases T <;> rfl

theorem buildLinks_isOk (xs : List RawEntry) : (buildLinks xs).isOk = linksOk xs := by
  induction xs with
  | nil => rfl
  | cons e es ih =>
    have he : (buildLink e).isOk = entryLinkOk e := buildLink_isOk e
    simp only [linksOk, List.all_cons]
    cases hl : buildLink e with
    | error m =>
      rw [hl] at he
      have he2 : entryLinkOk e = false := by
        simpa [Except.isOk, Except.toBool] using he.symm
      simp [buildLinks, hl, he2, Except.isOk, Except.toBool]
    | ok l =>
      rw [hl] at he
      have he2 : entryLinkOk e = true := by
        simpa [Except.isOk, Except.toBool] using he.symm
      simp only [linksOk] at ih
      cases hes : buildLinks es with
      | error m =>
        rw [hes] at ih
        have ih2 : es.all entryLinkOk = false := by
          simpa [Except.isOk, Except.toBool] using ih.symm
        simp [buildLinks, hl, hes, he2, ih2, Except.isOk, Except.toBool]
      | ok ls =>
        rw [hes] at ih
        have ih2 : es.all entryLinkOk = true := by
          simpa [Except.isOk, Except.toBool] using ih.symm
        simp [buildLinks, hl, hes, he2, ih2, Except.isOk, Except.toBool]

/-! ### Lemmas: link resolution fails when an endpoint is unresolvable -/

theorem resolveLinks_error_of_bad (ids : List String) (ls : List LinkRec)
    (h : ls.any (fun l => !ids.contains l.source || !ids.contains l.target) = true) :
    ∃ m, resolveLinks ids ls = Except.error m := by
  induction ls with
  | nil => simp at h
  | cons l ls ih =>
    by_cases hs : l.source ∈ ids
    · by_cases ht : l.target ∈ ids
      · have hcs : ids.contains l.source = true := by
          simp [contains_eq_decide, hs]
        have hct : ids.contains l.target = true := by
          simp [contains_eq_decide, ht]
        have htail : ls.any (fun x => !ids.contains x.source || !ids.contains x.target) = true := by
          rw [List.any_cons, hcs, hct] at h
          simpa using h
        obtain ⟨m, hm⟩ := ih htail
        exact ⟨m, by simp [resolveLinks, hs, ht, hm]⟩
      · exact ⟨l.target, by simp [resolveLinks, hs, ht]⟩
    · exact ⟨l.source, by simp [resolveLinks, hs]⟩

/-! ### Lemmas: pinned nodes under simulation ticks -/

theorem tickNode_pinned (dvx dvy decay : ℚ) (n : SimNode) (px py : ℚ)
    (hx : n.fx = some px) (hy : n.fy = some py) :
    tickNode dvx dvy decay n = { n with x := px, vx := 0, y := py, vy := 0 } := by
  simp [tickNode, hx, hy]

theorem tickRun_pinned (px py : ℚ) (ds : List (ℚ × ℚ × ℚ)) :
    ∀ s : SimState, s.node.fx = some px → s.node.fy = some py →
      s.node.x = px → s.node.y = py →
      (tickRun ds s).node.fx = some px ∧ (tickRun ds s).node.fy = some py ∧
      (tickRun ds s).node.x = px ∧ (tickRun ds s).node.y = py := by
  induction ds with
  | nil =>
    intro s h1 h2 h3 h4
    exact ⟨h1, h2, h3, h4⟩
  | cons d ds ih =>
    intro s h1 h2 h3 h4
    simp only [tickRun, List.foldl_cons]
    have hp := tickNode_pinned d.1 d.2.1 d.2.2 s.node px py h1 h2
    have := ih (tickSim d.1 d.2.1 d.2.2 s) (by simp [tickSim, hp, h1]) (by simp [tickSim, hp, h2])
      (by simp [tickSim, hp]) (by simp [tickSim, hp])
    simpa [tickRun] using this

/-! ### Unfolding lemmas for the normalizer -/

theorem transform_arr_ok {xs : List RawEntry} {ls : List LinkRec}
    (h : buildLinks xs = Except.ok ls) :
    transformNeo4jData (RawInput.arr xs) =
      (⟨(collectIds [] xs).map mkNode, ls⟩, warnDiags xs) := by
  simp [transformNeo4jData, transformInner, h, rawWarns]

theorem transform_arr_error {xs : List RawEntry} {m : String}
    (h : buildLinks xs = Except.error m) :
    transformNeo4jData (RawInput.arr xs) =
      (emptyGraphData, warnDiags xs ++ [⟨LogLevel.error, "数据转换失败"⟩]) := by
  simp [transformNeo4jData, transformInner, h, rawWarns]

theorem endpoint_sound {i : Int} {e : RawEntry} (h : i ∈ entryEndpoints e) :
    entryHasEndpointStr (intToStr i) e = true := by
  cases e with
  | nullish => simp [entryEndpoints] at h
  | entry r =>
    rcases r with ⟨S, T, R⟩
    cases S with
    | num s =>
      cases T with
      | num t =>
        simp only [entryEndpoints, List.mem_cons, List.not_mem_nil, or_false] at h
        rcases h with rfl | rfl <;> simp [entryHasEndpointStr]
      | str s2 => simp [entryEndpoints] at h
      | undef => simp [entryEndpoints] at h
      | nullV => simp [entryEndpoints] at h
    | str s1 => cases T <;> simp [entryEndpoints] at h
    | undef => cases T <;> simp [entryEndpoints] at h
    | nullV => cases T <;> simp [entryEndpoints] at h

/-! ### The claims -/

/-- C1: the claim states that for every raw input array the link count
equals the number of raw records with both numeric endpoints, and that for
the input `[{Source:1,Target:2},{Source:"x",Target:2}]` the output has 2
nodes and exactly 1 link.  The code disagrees: the link-building map runs
over every raw record, valid or not, so the record with the string source
"x" still yields a link.  This theorem evaluates the code model at exactly
the claim's scenario input: 2 nodes but 2 links (both with the default
related tag), the second link keeping the malformed endpoint. -/
theorem c1_malformed_record_still_yields_link :
    transformNeo4jData (RawInput.arr
      [RawEntry.entry ⟨JsVal.num 1, JsVal.num 2, none⟩,
       RawEntry.entry ⟨JsVal.str "x", JsVal.num 2, none⟩]) =
      (⟨[⟨"1", "Node 1", "Entity"⟩, ⟨"2", "Node 2", "Entity"⟩],
        [⟨"1", "2", "关联"⟩, ⟨"x", "2", "关联"⟩]⟩,
       [⟨LogLevel.warn, "无效的关系数据"⟩]) := by decide

/-- C2: the claim states that a new `dataUrl` or an unmount stops tick
delivery and that a stale fetch never commits after a newer load started.
The effect body in the source returns no cleanup function and the fetch
continuation has no url or generation guard, so in the lifecycle model a
fetch for "a" still commits (and starts a simulation) after the load for
"b" has begun, and the simulation with its tick subscription survives
unmount. -/
theorem c2_no_cleanup_no_stale_guard :
    (runView [ViewEvent.setUrl "a", ViewEvent.setUrl "b",
      ViewEvent.fetchResolves "a"]).committed = ["a"] ∧
    (runView [ViewEvent.setUrl "a", ViewEvent.setUrl "b",
      ViewEvent.fetchResolves "a"]).current = some "b" ∧
    (runView [ViewEvent.setUrl "a", ViewEvent.setUrl "b",
      ViewEvent.fetchResolves "a"]).sims = ["a"] ∧
    (runView [ViewEvent.setUrl "a", ViewEvent.fetchResolves "a",
      ViewEvent.unmount]).sims = ["a"] ∧
    (runView [ViewEvent.setUrl "a", ViewEvent.fetchResolves "a",
      ViewEvent.unmount]).mounted = false := by
  refine ⟨?_, ?_, ?_, ?_, ?_⟩ <;> rfl

/-- C3: the claim states that any array containing invalid records (among
them null records) yields a warning per record while the valid remainder
still produces output.  The code does warn, but the link-building map then
throws on the null record, and the catch replaces the whole result with the
empty graph: the valid record `{Source:1,Target:2}` produces nothing.  This
theorem evaluates the code model at that input. -/
theorem c3_nullish_record_empties_graph :
    transformNeo4jData (RawInput.arr
      [RawEntry.entry ⟨JsVal.num 1, JsVal.num 2, none⟩, RawEntry.nullish]) =
      (emptyGraphData,
       [⟨LogLevel.warn, "无效的关系数据"⟩, ⟨LogLevel.error, "数据转换失败"⟩]) := by decide

/-- C4 counterexample: the claim quantifies over every graph containing an
unresolvable link.  For a graph whose node set is empty, the component
returns before link resolution without logging anything: the load is
dropped silently, not "aborted and reported", so the claim as stated fails
at this input. -/
theorem c4_empty_nodeset_unreported :
    loadAndRender (FetchOutcomeTyped.response true
      (some ⟨[], [⟨"a", "b", "rel"⟩]⟩)) = noRender 0 0 := by decide

/-- C4 amended: for every graph with a nonempty node set one of whose links
has an endpoint that resolves to no node id, the load is aborted at setup
time and reported: exactly one error diagnostic, no simulation started, and
no primitive (line, circle or label) appended, whatever the response status
flag was. -/
theorem c4_unresolvable_link_aborts_load (g : Graph) (ok : Bool)
    (h1 : g.nodes.length ≠ 0)
    (h2 : g.links.any (fun l =>
      !(g.nodes.map (fun n => n.id)).contains l.source ||
      !(g.nodes.map (fun n => n.id)).contains l.target) = true) :
    loadAndRender (FetchOutcomeTyped.response ok (some g)) = noRender 1 0 := by
  obtain ⟨m, hm⟩ := resolveLinks_error_of_bad _ _ h2
  simp [loadAndRender, h1, hm]

/-- C4 witness: the amended theorem applied to a concrete graph with one
node "1" and a link to the unknown node "2". -/
theorem c4_unresolvable_link_aborts_load_witness :
    loadAndRender (FetchOutcomeTyped.response true
      (some ⟨[⟨"1", "Node 1", "Entity"⟩], [⟨"1", "2", "关联"⟩]⟩)) = noRender 1 0 :=
  c4_unresolvable_link_aborts_load ⟨[⟨"1", "Node 1", "Entity"⟩], [⟨"1", "2", "关联"⟩]⟩
    true (by decide) (by decide)

/-- C5: in a single-gesture drag episode (`event.active` is 0 at start and
end) the handlers satisfy the claim: drag-start pins the node at its
current position and raises the target alpha to 0.3; drag-move pins the
node at the pointer position; drag-end clears both pinned fields and lowers
the target alpha back to 0; and after dragging to `(px, py)` and releasing,
the node's position is exactly `(px, py)` before any further settling,
regardless of the force magnitudes and decay factors of the intervening
ticks (the scenario value is `px = py = 500`). -/
theorem c5_drag_pin_cycle (s0 : SimState) (px py dvx dvy dc : ℚ)
    (ds : List (ℚ × ℚ × ℚ)) :
    (dragStarted 0 s0).node.fx = some s0.node.x ∧
    (dragStarted 0 s0).node.fy = some s0.node.y ∧
    (dragStarted 0 s0).alphaTarget = 3 / 10 ∧
    (dragged px py (dragStarted 0 s0)).node.fx = some px ∧
    (dragged px py (dragStarted 0 s0)).node.fy = some py ∧
    (dragEpisode s0 px py dvx dvy dc ds).node.fx = none ∧
    (dragEpisode s0 px py dvx dvy dc ds).node.fy = none ∧
    (dragEpisode s0 px py dvx dvy dc ds).alphaTarget = 0 ∧
    (dragEpisode s0 px py dvx dvy dc ds).node.x = px ∧
    (dragEpisode s0 px py dvx dvy dc ds).node.y = py := by
  have hs2x : (dragged px py (dragStarted 0 s0)).node.fx = some px := by
    simp [dragged]
  have hs2y : (dragged px py (dragStarted 0 s0)).node.fy = some py := by
    simp [dragged]
  have hp := tickNode_pinned dvx dvy dc (dragged px py (dragStarted 0 s0)).node px py hs2x hs2y
  have hrun := tickRun_pinned px py ds
    (tickSim dvx dvy dc (dragged px py (dragStarted 0 s0)))
    (by simp [tickSim, hp, hs2x]) (by simp [tickSim, hp, hs2y])
    (by simp [tickSim, hp]) (by simp [tickSim, hp])
  refine ⟨by simp [dragStarted], by simp [dragStarted], by simp [dragStarted],
    hs2x, hs2y, ?_, ?_, ?_, ?_, ?_⟩
  · simp [dragEpisode, dragEnded]
  · simp [dragEpisode, dragEnded]
  · simp [dragEpisode, dragEnded]
  · simp only [dragEpisode, dragEnded]
    simpa using hrun.2.2.1
  · simp only [dragEpisode, dragEnded]
    simpa using hrun.2.2.2

/-- C6 counterexample: the claim states that an HTTP response with
non-success status yields one diagnostic and no rendered graph.  The typed
component (`loadAndRender`, src/unnamed/part_000) never checks
`response.ok`: a non-success response whose body parses as a graph is
rendered exactly like a success, with a simulation started and zero
diagnostics, so the claim as stated fails at this input. -/
theorem c6_loadAndRender_renders_on_http_error :
    loadAndRender (FetchOutcomeTyped.response false
      (some ⟨[⟨"1", "Node 1", "Entity"⟩], []⟩)) = ⟨0, 1, 1, true, 0, 0⟩ := by decide

/-- C6 amended: a fetch rejection yields exactly one diagnostic and no
render in both components, and in `renderGraph` (src/unnamed/part_001) a
response with non-success status also yields exactly one diagnostic and no
render whatever the body is; `loadAndRender` does not check the response
status, so there the non-success case is handled like a success.  In all
these failure paths nothing is rethrown (the model is a total function
whose only failure output is the diagnostic count). -/
theorem c6_transport_failure_single_diagnostic :
    renderGraph FetchOutcome.rejected = noRender 1 0 ∧
    (∀ body, renderGraph (FetchOutcome.response false body) = noRender 1 0) ∧
    loadAndRender FetchOutcomeTyped.rejected = noRender 1 0 := by
  refine ⟨rfl, ?_, rfl⟩
  intro body
  rfl

/-- C7 counterexample: the claim states that a non-array input makes the
normalizer log a warning diagnostic.  At the concrete non-array input
`"oops"` the result is the empty graph with exactly one diagnostic, and
that diagnostic is error-level (`console.error` in the catch clause), not a
warning: the warning count is zero, so the claim as stated is false. -/
theorem c7_non_array_logs_error_not_warning :
    (transformNeo4jData (RawInput.notArray (JsVal.str "oops"))).1 = emptyGraphData ∧
    ((transformNeo4jData (RawInput.notArray (JsVal.str "oops"))).2.filter
      (fun d => d.level == LogLevel.warn)).length = 0 ∧
    (transformNeo4jData (RawInput.notArray (JsVal.str "oops"))).2.length = 1 := by decide

/-- C7 amended: for every non-array input value the normalizer returns the
empty graph and logs exactly one error-level diagnostic (`console.error`
from the catch clause), and it does not throw to its caller (the model is a
total function). -/
theorem c7_non_array_empty_graph_error_diag (v : JsVal) :
    transformNeo4jData (RawInput.notArray v) =
      (emptyGraphData, [⟨LogLevel.error, "数据转换失败"⟩]) := rfl

/-- C8: for every raw input array, the node ids of the output are pairwise
distinct, every one of them is the decimal string of a numeric `Source` or
`Target` of some valid record of the input, and the node list is exactly
the first-encounter order of the valid endpoints (when the link-building
map succeeds; when it throws, the catch clause makes the node list empty,
which the ids-level clauses satisfy vacuously). -/
theorem c8_node_ids_unique_sound_first_encounter (xs : List RawEntry) :
    allDistinct ((transformNeo4jData (RawInput.arr xs)).1.nodes.map (fun n => n.id)) = true ∧
    ((transformNeo4jData (RawInput.arr xs)).1.nodes.all
      (fun n => xs.any (entryHasEndpointStr n.id))) = true ∧
    (transformNeo4jData (RawInput.arr xs)).1.nodes.map (fun n => n.id) =
      (if linksOk xs then (firstOccurrences (endpointStream xs)).map intToStr else []) := by
  have hids := collectIds_eq_firstOccurrences xs
  have hcomp : ((fun n : NodeRec => n.id) ∘ mkNode) = intToStr := by
    funext i; rfl
  cases hb : buildLinks xs with
  | ok ls =>
    have hOk : linksOk xs = true := by
      have hio := buildLinks_isOk xs
      rw [hb] at hio
      simpa [Except.isOk, Except.toBool] using hio.symm
    rw [transform_arr_ok hb]
    refine ⟨?_, ?_, ?_⟩
    · rw [List.map_map, hcomp, allDistinct_iff, hids]
      exact (firstOccurrences_nodup _).map intToStr_inj
    · show ((collectIds [] xs).map mkNode).all (fun n => xs.any (entryHasEndpointStr n.id)) = true
      rw [List.all_eq_true]
      intro n hn
      rw [List.mem_map] at hn
      obtain ⟨i, hi, rfl⟩ := hn
      show xs.any (entryHasEndpointStr (intToStr i)) = true
      rw [hids] at hi
      have hi2 : i ∈ endpointStream xs := mem_firstOccurrences.mp hi
      rw [List.any_eq_true]
      rw [endpointStream, List.mem_flatten] at hi2
      obtain ⟨l, hl, hil⟩ := hi2
      rw [List.mem_map] at hl
      obtain ⟨e, he, rfl⟩ := hl
      exact ⟨e, he, endpoint_sound hil⟩
    · rw [if_pos hOk, List.map_map, hcomp, hids]
  | error m =>
    have hNo : linksOk xs = false := by
      have hio := buildLinks_isOk xs
      rw [hb] at hio
      simpa [Except.isOk, Except.toBool] using hio.symm
    rw [transform_arr_error hb]
    refine ⟨rfl, rfl, ?_⟩
    rw [if_neg (by simp [hNo])]
    rfl

/-- C9: the normalizer is a deterministic pure function of its input: two
applications to the same raw value give equal results, and the graphs of
the two runs pass the decidable structural-identity check (same ids, same
values, same order).  The embedding captures purity: the source function
reads nothing but its argument, and its console output and caught
exceptions are part of the returned value. -/
theorem c9_normalizer_deterministic (raw : RawInput) :
    transformNeo4jData raw = transformNeo4jData raw ∧
    structurallyIdentical (transformNeo4jData raw).1 (transformNeo4jData raw).1 = true :=
  ⟨rfl, decide_eq_true rfl⟩

/-- C10: the normalizer is total at its public interface: for every input
it returns a `{nodes, links}` pair (by the type of the model), and every
run either propagates the try-body's graph unchanged or, when the try body
throws, collapses to the empty graph with the catch diagnostic appended —
no exception escapes.  The closed conjunct evaluates the model on an array
containing a null record, an input whose link map throws internally. -/
theorem c10_transform_total_error_confined (raw : RawInput) :
    ((∃ g, transformInner raw = Except.ok g ∧
        transformNeo4jData raw = (g, rawWarns raw)) ∨
     (∃ m, transformInner raw = Except.error m ∧
        transformNeo4jData raw =
          (emptyGraphData, rawWarns raw ++ [⟨LogLevel.error, "数据转换失败"⟩]))) ∧
    transformNeo4jData (RawInput.arr [RawEntry.nullish]) =
      (emptyGraphData, [⟨LogLevel.warn, "无效的关系数据"⟩, ⟨LogLevel.error, "数据转换失败"⟩]) := by
  constructor
  · cases h : transformInner raw with
    | ok g => exact Or.inl ⟨g, rfl, by simp [transformNeo4jData, h]⟩
    | error m => exact Or.inr ⟨m, rfl, by simp [transformNeo4jData, h]⟩
  · decide
